import Mathlib

/-!
# Verification of the electron-bus message bus core

Shallow embedding of `src/ElectronBus.js` and `src/MessageEnvelope.js`.

* The channel registry (`this.channels`, a `Map` from channel name to a `Set`
  of subscriber callbacks) is modelled as an association list
  `List (String × List Nat)`; callbacks are identified by natural numbers.
  JavaScript `Map` and `Set` preserve insertion order and hold each key or
  element at most once; the list model reflects element uniqueness via
  `setAdd` and key uniqueness via the `wfRegistry` predicate.
* `subscribe` / `unsubscribe` follow `ElectronBus.js` lines 85-122.
* The envelope codec (`MessageEnvelope.js`) is modelled over a small JavaScript
  value universe with explicit truthiness, short-circuit `&&` and member
  access that throws on `null`/`undefined`.
* `localDispatch` (lines 151-162) and the waiting-dispatch correlator
  (lines 175-222) are modelled as explicit state passing, with payload
  identity (deep cloning) captured by object trees carrying allocation ids.
-/

namespace ElectronBus

/-- The channel registry: channel name mapped to the ordered set of subscriber
callbacks, callbacks identified by `Nat`.  Mirrors `this.channels` from
`ElectronBus.js` line 30. -/
abbrev Registry := List (String × List Nat)

/-- JavaScript `Set.prototype.add`: append the element unless already present. -/
def setAdd (s : List Nat) (f : Nat) : List Nat :=
  if f ∈ s then s else s ++ [f]

/-- JavaScript `Set.prototype.delete`: remove the element if present. -/
def setDelete (s : List Nat) (f : Nat) : List Nat :=
  s.filter (fun x => x ≠ f)

/-- `Map.prototype.get` with the empty default: the subscriber set of a
channel, `[]` when the channel is absent. -/
def subscribersOf (r : Registry) (c : String) : List Nat :=
  (r.lookup c).getD []

/-- `Map.prototype.has` for the channel registry. -/
def hasChannel (r : Registry) (c : String) : Bool :=
  (r.lookup c).isSome

/-- `ElectronBus.subscribe` (lines 85-98): create the channel's subscriber set
on first use, then add the callback to it. -/
def subscribe (r : Registry) (c : String) (f : Nat) : Registry :=
  (if (r.lookup c).isSome then r else r ++ [(c, [])]).map
    (fun p => if p.1 = c then (p.1, setAdd p.2 f) else p)

/-- `ElectronBus.unsubscribe` (lines 107-122): no-op when the channel is
unknown; otherwise remove the callback from the set, and remove the channel
entry when the set becomes empty. -/
def unsubscribe (r : Registry) (c : String) (f : Nat) : Registry :=
  if hasChannel r c = false then r
  else if (setDelete (subscribersOf r c) f).length = 0 then
    r.filter (fun p => p.1 ≠ c)
  else
    r.map (fun p => if p.1 = c then (p.1, setDelete p.2 f) else p)

/-- Key uniqueness: a JavaScript `Map` holds each key at most once. -/
def wfRegistry (r : Registry) : Prop :=
  (r.map Prod.fst).Nodup

/-- The registry invariant of the spec: every channel entry present in the
registry has a non-empty subscriber set. -/
def registryInv (r : Registry) : Prop :=
  ∀ p ∈ r, p.2 ≠ []

/-! ## Lookup lemmas for the registry operations -/

theorem lookup_cons (c k : String) (v : List Nat) (t : Registry) :
    ((k, v) :: t).lookup c = if c = k then some v else t.lookup c := by
  by_cases h : c = k
  · subst h; simp [List.lookup]
  · have hb : (c == k) = false := by simpa using h
    simp [List.lookup, hb, h]

theorem lookup_eq_none_iff {r : Registry} {c : String} :
    r.lookup c = none ↔ c ∉ r.map Prod.fst := by
  induction r with
  | nil => simp
  | cons p t ih =>
    obtain ⟨k, v⟩ := p
    rw [lookup_cons]
    by_cases h : c = k
    · simp [h]
    · simp [h, ih]

theorem lookup_eq_some_of_mem {r : Registry} (hwf : wfRegistry r) {c : String}
    {s : List Nat} (h : (c, s) ∈ r) : r.lookup c = some s := by
  induction r with
  | nil => simp at h
  | cons p t ih =>
    obtain ⟨k, v⟩ := p
    simp only [wfRegistry, List.map_cons, List.nodup_cons] at hwf
    rw [lookup_cons]
    rcases List.mem_cons.mp h with h1 | h1
    · obtain ⟨hc, hs⟩ := Prod.mk.injEq .. ▸ h1
      simp [hc, hs]
    · have hck : c ≠ k := by
        intro hck
        exact hwf.1 (List.mem_map.mpr ⟨(c, s), h1, hck ▸ rfl⟩)
      rw [if_neg hck]
      exact ih hwf.2 h1

theorem mem_of_lookup_eq_some {r : Registry} {c : String} {s : List Nat}
    (h : r.lookup c = some s) : (c, s) ∈ r := by
  induction r with
  | nil => simp [List.lookup] at h
  | cons p t ih =>
    obtain ⟨k, v⟩ := p
    rw [lookup_cons] at h
    by_cases hck : c = k
    · rw [if_pos hck] at h
      cases h
      subst hck
      exact List.mem_cons_self _ _
    · rw [if_neg hck] at h
      exact List.mem_cons_of_mem _ (ih h)

theorem update_entry_eq (c : String) (g : List Nat → List Nat) (k : String)
    (v : List Nat) :
    (if (k, v).1 = c then ((k, v).1, g (k, v).2) else (k, v))
      = if k = c then (k, g v) else (k, v) := by
  by_cases h : k = c <;> simp [h]

theorem lookup_map_update {r : Registry} {c : String}
    (g : List Nat → List Nat) :
    (r.map (fun p => if p.1 = c then (p.1, g p.2) else p)).lookup c
      = (r.lookup c).map g := by
  induction r with
  | nil => simp
  | cons p t ih =>
    obtain ⟨k, v⟩ := p
    rw [List.map_cons, update_entry_eq]
    by_cases hkc : k = c
    · subst hkc
      rw [if_pos rfl, lookup_cons, lookup_cons, if_pos rfl, if_pos rfl]
      simp
    · have hck : c ≠ k := fun h => hkc h.symm
      rw [if_neg hkc, lookup_cons, lookup_cons, if_neg hck, if_neg hck]
      exact ih

theorem lookup_map_update_other {r : Registry} {c c' : String}
    (g : List Nat → List Nat) (h : c' ≠ c) :
    (r.map (fun p => if p.1 = c then (p.1, g p.2) else p)).lookup c'
      = r.lookup c' := by
  induction r with
  | nil => simp
  | cons p t ih =>
    obtain ⟨k, v⟩ := p
    rw [List.map_cons, update_entry_eq]
    by_cases hkc : k = c
    · subst hkc
      rw [if_pos rfl, lookup_cons, lookup_cons, if_neg h, if_neg h]
      exact ih
    · rw [if_neg hkc, lookup_cons, lookup_cons]
      by_cases hck : c' = k
      · rw [if_pos hck, if_pos hck]
      · rw [if_neg hck, if_neg hck]
        exact ih

theorem lookup_filter_out {r : Registry} {c : String} :
    (r.filter (fun p => p.1 ≠ c)).lookup c = none := by
  induction r with
  | nil => simp
  | cons p t ih =>
    obtain ⟨k, v⟩ := p
    rw [List.filter_cons]
    by_cases hkc : k = c
    · simp only [hkc, decide_not]
      simp only [decide_eq_true_eq] at *
      simpa using ih
    · have : (decide ¬((k, v).1 = c)) = true := by simpa using hkc
      rw [if_pos this, lookup_cons]
      rw [if_neg (fun h => hkc h.symm)]
      exact ih

theorem lookup_filter_out_other {r : Registry} {c c' : String} (h : c' ≠ c) :
    (r.filter (fun p => p.1 ≠ c)).lookup c' = r.lookup c' := by
  induction r with
  | nil => simp
  | cons p t ih =>
    obtain ⟨k, v⟩ := p
    rw [List.filter_cons]
    by_cases hkc : k = c
    · have : (decide ¬((k, v).1 = c)) = false := by simpa using hkc
      rw [if_neg (by simp [this]), lookup_cons]
      rw [if_neg (fun hk => h (hk.trans hkc))]
      exact ih
    · have : (decide ¬((k, v).1 = c)) = true := by simpa using hkc
      rw [if_pos this, lookup_cons, lookup_cons]
      by_cases hck : c' = k
      · rw [if_pos hck, if_pos hck]
      · rw [if_neg hck, if_neg hck]
        exact ih

/-- After `subscribe`, the channel's subscriber set is the old set with the
callback added. -/
theorem lookup_subscribe_self (r : Registry) (c : String) (f : Nat) :
    (subscribe r c f).lookup c = some (setAdd (subscribersOf r c) f) := by
  unfold subscribe subscribersOf
  cases hl : r.lookup c with
  | some s =>
    rw [if_pos (by simp [hl])]
    rw [lookup_map_update (g := fun s => setAdd s f)]
    simp [hl]
  | none =>
    rw [if_neg (by simp [hl])]
    rw [List.map_append, List.lookup_append]
    rw [lookup_map_update (g := fun s => setAdd s f)]
    simp [hl, lookup_cons]

theorem lookup_subscribe_other (r : Registry) {c c' : String} (f : Nat)
    (h : c' ≠ c) : (subscribe r c f).lookup c' = r.lookup c' := by
  unfold subscribe
  cases hl : r.lookup c with
  | some s =>
    rw [if_pos (by simp [hl])]
    exact lookup_map_update_other (g := fun s => setAdd s f) h
  | none =>
    rw [if_neg (by simp [hl])]
    rw [List.map_append, List.lookup_append]
    rw [lookup_map_update_other (g := fun s => setAdd s f) h]
    cases hl' : r.lookup c' with
    | some s' => simp
    | none => simp [lookup_cons, h]

theorem unsubscribe_of_lookup_none {r : Registry} {c : String} (f : Nat)
    (h : r.lookup c = none) : unsubscribe r c f = r := by
  unfold unsubscribe
  rw [if_pos (by simp [hasChannel, h])]

theorem lookup_unsubscribe_self_empty {r : Registry} {c : String} {f : Nat}
    {s : List Nat} (h : r.lookup c = some s) (he : setDelete s f = []) :
    (unsubscribe r c f).lookup c = none := by
  unfold unsubscribe
  rw [if_neg (by simp [hasChannel, h])]
  rw [if_pos (by simp [subscribersOf, h, he])]
  exact lookup_filter_out

theorem lookup_unsubscribe_self_nonempty {r : Registry} {c : String} {f : Nat}
    {s : List Nat} (h : r.lookup c = some s) (he : setDelete s f ≠ []) :
    (unsubscribe r c f).lookup c = some (setDelete s f) := by
  unfold unsubscribe
  rw [if_neg (by simp [hasChannel, h])]
  rw [if_neg (by simp [subscribersOf, h, List.length_eq_zero, he])]
  rw [lookup_map_update (g := fun s => setDelete s f)]
  simp [h]

/-- After `unsubscribe r c f`, the callback `f` is no longer a subscriber
of `c`. -/
theorem notMem_subscribersOf_unsubscribe (r : Registry) (c : String) (f : Nat) :
    f ∉ subscribersOf (unsubscribe r c f) c := by
  cases hl : r.lookup c with
  | none =>
    rw [unsubscribe_of_lookup_none f hl]
    simp [subscribersOf, hl]
  | some s =>
    by_cases he : setDelete s f = []
    · rw [subscribersOf, lookup_unsubscribe_self_empty hl he]
      simp
    · rw [subscribersOf, lookup_unsubscribe_self_nonempty hl he]
      simp only [Option.getD_some]
      intro hmem
      have h2 := (List.mem_filter.mp hmem).2
      simp at h2

theorem setAdd_ne_nil (s : List Nat) (f : Nat) : setAdd s f ≠ [] := by
  unfold setAdd
  split
  · rename_i h
    intro hs
    subst hs
    simp at h
  · simp

theorem setDelete_idem (s : List Nat) (f : Nat) :
    setDelete (setDelete s f) f = setDelete s f := by
  apply List.filter_eq_self.mpr
  intro a ha
  exact (List.mem_filter.mp ha).2

theorem unsubscribe_eq_filter {r : Registry} {c : String} {f : Nat}
    {s : List Nat} (h : r.lookup c = some s) (he : setDelete s f = []) :
    unsubscribe r c f = r.filter (fun p => p.1 ≠ c) := by
  unfold unsubscribe
  rw [if_neg (by simp [hasChannel, h])]
  rw [if_pos (by simp [subscribersOf, h, he])]

theorem unsubscribe_eq_map {r : Registry} {c : String} {f : Nat}
    {s : List Nat} (h : r.lookup c = some s) (he : setDelete s f ≠ []) :
    unsubscribe r c f
      = r.map (fun p => if p.1 = c then (p.1, setDelete p.2 f) else p) := by
  unfold unsubscribe
  rw [if_neg (by simp [hasChannel, h])]
  rw [if_neg (by simp [subscribersOf, h, List.length_eq_zero, he])]

theorem keys_map_update (r : Registry) (c : String)
    (g : List Nat → List Nat) :
    (r.map (fun p => if p.1 = c then (p.1, g p.2) else p)).map Prod.fst
      = r.map Prod.fst := by
  rw [List.map_map]
  apply List.map_congr_left
  intro p _
  by_cases h : p.1 = c <;> simp [Function.comp, h]

theorem subscribe_wf {r : Registry} (hwf : wfRegistry r) (c : String)
    (f : Nat) : wfRegistry (subscribe r c f) := by
  unfold subscribe wfRegistry
  cases hl : r.lookup c with
  | some s =>
    rw [if_pos (by simp [hl]), keys_map_update r c (fun s => setAdd s f)]
    exact hwf
  | none =>
    rw [if_neg (by simp [hl]),
      keys_map_update (r ++ [(c, [])]) c (fun s => setAdd s f),
      List.map_append]
    have hc : c ∉ r.map Prod.fst := lookup_eq_none_iff.mp hl
    simp only [List.map_cons, List.map_nil]
    rw [List.nodup_append]
    refine ⟨hwf, List.nodup_singleton c, ?_⟩
    intro a ha hb
    simp at hb
    subst hb
    exact hc ha

theorem subscribe_inv {r : Registry} (hinv : registryInv r) (c : String)
    (f : Nat) : registryInv (subscribe r c f) := by
  unfold subscribe
  intro p hp
  obtain ⟨q, hq, hpq⟩ := List.mem_map.mp hp
  by_cases hqc : q.1 = c
  · rw [if_pos hqc] at hpq
    subst hpq
    exact setAdd_ne_nil _ _
  · rw [if_neg hqc] at hpq
    subst hpq
    split at hq
    · exact hinv q hq
    · rcases List.mem_append.mp hq with h1 | h1
      · exact hinv q h1
      · simp at h1
        exact absurd (by simp [h1]) hqc

theorem unsubscribe_wf {r : Registry} (hwf : wfRegistry r) (c : String)
    (f : Nat) : wfRegistry (unsubscribe r c f) := by
  cases hl : r.lookup c with
  | none => rw [unsubscribe_of_lookup_none f hl]; exact hwf
  | some s =>
    by_cases he : setDelete s f = []
    · rw [unsubscribe_eq_filter hl he]
      exact List.Nodup.sublist (List.Sublist.map _ (List.filter_sublist r)) hwf
    · rw [unsubscribe_eq_map hl he]
      unfold wfRegistry
      rw [keys_map_update r c (fun s => setDelete s f)]
      exact hwf

theorem unsubscribe_inv {r : Registry} (hwf : wfRegistry r)
    (hinv : registryInv r) (c : String) (f : Nat) :
    registryInv (unsubscribe r c f) := by
  cases hl : r.lookup c with
  | none => rw [unsubscribe_of_lookup_none f hl]; exact hinv
  | some s =>
    by_cases he : setDelete s f = []
    · rw [unsubscribe_eq_filter hl he]
      intro p hp
      exact hinv p (List.mem_of_mem_filter hp)
    · rw [unsubscribe_eq_map hl he]
      intro p hp
      obtain ⟨q, hq, hpq⟩ := List.mem_map.mp hp
      by_cases hqc : q.1 = c
      · rw [if_pos hqc] at hpq
        subst hpq
        have hqs : r.lookup c = some q.2 := by
          rw [← hqc]
          exact lookup_eq_some_of_mem hwf (by rwa [show (q.1, q.2) = q from rfl])
        rw [hqs] at hl
        cases hl
        simpa using he
      · rw [if_neg hqc] at hpq
        subst hpq
        exact hinv q hq

/-- One registry operation: a `subscribe` or an `unsubscribe` call on the bus. -/
inductive RegOp where
  | sub (c : String) (f : Nat)
  | unsub (c : String) (f : Nat)

/-- Apply one registry operation. -/
def applyRegOp (r : Registry) : RegOp → Registry
  | .sub c f => subscribe r c f
  | .unsub c f => unsubscribe r c f

/-- Run a sequence of subscribe/unsubscribe operations from a start state. -/
def runRegOps (r : Registry) (ops : List RegOp) : Registry :=
  ops.foldl applyRegOp r

theorem runRegOps_wf_inv (ops : List RegOp) :
    ∀ r : Registry, wfRegistry r → registryInv r →
      wfRegistry (runRegOps r ops) ∧ registryInv (runRegOps r ops) := by
  induction ops with
  | nil => exact fun r hwf hinv => ⟨hwf, hinv⟩
  | cons op t ih =>
    intro r hwf hinv
    cases op with
    | sub c f =>
      exact ih _ (subscribe_wf hwf c f) (subscribe_inv hinv c f)
    | unsub c f =>
      exact ih _ (unsubscribe_wf hwf c f) (unsubscribe_inv hwf hinv c f)

/-- Claim C4: starting from the empty registry, after any sequence of
`subscribe` and `unsubscribe` operations a channel name is present in the
channel registry exactly when its subscriber set is non-empty; moreover
`subscribe` creates the channel entry on first use, and `unsubscribe`
removes the channel entry when it deletes the last subscriber. -/
theorem registry_channel_iff_nonempty (ops : List RegOp) (c : String)
    (f : Nat) :
    (hasChannel (runRegOps [] ops) c
        = !(subscribersOf (runRegOps [] ops) c).isEmpty)
    ∧ hasChannel (subscribe (runRegOps [] ops) c f) c = true
    ∧ (subscribersOf (runRegOps [] ops) c = [f]
        → hasChannel (unsubscribe (runRegOps [] ops) c f) c = false) := by
  obtain ⟨hwf, hinv⟩ := runRegOps_wf_inv ops [] (by simp [wfRegistry]) (by simp [registryInv])
  refine ⟨?_, ?_, ?_⟩
  · cases hl : (runRegOps [] ops).lookup c with
    | none => simp [hasChannel, subscribersOf, hl]
    | some s =>
      have hmem := mem_of_lookup_eq_some hl
      have hne := hinv _ hmem
      simp [hasChannel, subscribersOf, hl, List.isEmpty_iff, hne]
  · rw [hasChannel, lookup_subscribe_self]
    simp
  · intro hs
    unfold subscribersOf at hs
    cases hl : (runRegOps [] ops).lookup c with
    | none => rw [hl] at hs; simp at hs
    | some s =>
      rw [hl] at hs
      simp only [Option.getD_some] at hs
      subst hs
      have he : setDelete [f] f = [] := by simp [setDelete]
      rw [hasChannel, lookup_unsubscribe_self_empty hl he]
      simp

/-- Witness for Claim C4's conditional clause at a concrete run. -/
theorem registry_channel_iff_nonempty_witness :
    (hasChannel (runRegOps [] [RegOp.sub "a" 1]) "a"
        = !(subscribersOf (runRegOps [] [RegOp.sub "a" 1]) "a").isEmpty)
    ∧ hasChannel (subscribe (runRegOps [] [RegOp.sub "a" 1]) "a" 1) "a" = true
    ∧ hasChannel (unsubscribe (runRegOps [] [RegOp.sub "a" 1]) "a" 1) "a"
        = false := by
  obtain ⟨h1, h2, h3⟩ := registry_channel_iff_nonempty [RegOp.sub "a" 1] "a" 1
  exact ⟨h1, h2, h3 (by decide)⟩

/-- Claim C9: `unsubscribe` is idempotent.  Calling it twice in a row gives the
same registry as calling it once; calling it on an unknown channel is a no-op;
and calling it on a pair that is not subscribed (in a well-formed registry
satisfying the non-empty-set invariant) leaves the registry unchanged.  It is
a total function, so it never throws. -/
theorem unsubscribe_idempotent (r : Registry) (c : String) (f : Nat) :
    unsubscribe (unsubscribe r c f) c f = unsubscribe r c f
    ∧ (hasChannel r c = false → unsubscribe r c f = r)
    ∧ (wfRegistry r → registryInv r → f ∉ subscribersOf r c →
        unsubscribe r c f = r) := by
  refine ⟨?_, ?_, ?_⟩
  · cases hl : r.lookup c with
    | none =>
      rw [unsubscribe_of_lookup_none f hl, unsubscribe_of_lookup_none f hl]
    | some s =>
      by_cases he : setDelete s f = []
      · exact unsubscribe_of_lookup_none f (lookup_unsubscribe_self_empty hl he)
      · have h1 := lookup_unsubscribe_self_nonempty hl he
        have hdd := setDelete_idem s f
        rw [unsubscribe_eq_map h1 (by rw [hdd]; exact he)]
        rw [unsubscribe_eq_map hl he, List.map_map]
        apply List.map_congr_left
        intro p _
        by_cases hpc : p.1 = c
        · simp [Function.comp, hpc, setDelete_idem]
        · simp [Function.comp, hpc]
  · intro hc
    apply unsubscribe_of_lookup_none
    unfold hasChannel at hc
    exact Option.not_isSome_iff_eq_none.mp (by simp [hc])
  · intro hwf hinv hf
    cases hl : r.lookup c with
    | none => exact unsubscribe_of_lookup_none f hl
    | some s =>
      have hmem := mem_of_lookup_eq_some hl
      have hs : s ≠ [] := hinv _ hmem
      have hfs : f ∉ s := by
        rw [subscribersOf, hl] at hf
        simpa using hf
      have hds : setDelete s f = s := by
        apply List.filter_eq_self.mpr
        intro a ha
        simp only [ne_eq, decide_eq_true_eq]
        intro haf
        exact hfs (haf ▸ ha)
      rw [unsubscribe_eq_map hl (by rw [hds]; exact hs)]
      calc r.map (fun p => if p.1 = c then (p.1, setDelete p.2 f) else p)
          = r.map id := by
            apply List.map_congr_left
            intro p hp
            simp only [id_eq]
            by_cases hpc : p.1 = c
            · have hqs : r.lookup c = some p.2 := by
                rw [← hpc]
                exact lookup_eq_some_of_mem hwf
                  (by rwa [show (p.1, p.2) = p from rfl])
              rw [hqs] at hl
              cases hl
              rw [if_pos hpc, hds]
            · rw [if_neg hpc]
        _ = r := List.map_id r

/-- Witness for Claim C9 at a concrete registry. -/
theorem unsubscribe_idempotent_witness :
    unsubscribe (unsubscribe [("a", [1])] "a" 2) "a" 2
        = unsubscribe [("a", [1])] "a" 2
    ∧ unsubscribe [("a", [1])] "b" 2 = [("a", [1])]
    ∧ unsubscribe [("a", [1])] "a" 2 = [("a", [1])] := by
  refine ⟨(unsubscribe_idempotent [("a", [1])] "a" 2).1,
          (unsubscribe_idempotent [("a", [1])] "b" 2).2.1 (by decide),
          (unsubscribe_idempotent [("a", [1])] "a" 2).2.2 ?_ ?_ (by decide)⟩
  · simp [wfRegistry]
  · intro p hp
    simp at hp
    simp [hp]

/-! ## The envelope codec (`src/MessageEnvelope.js`) -/

/-- A small universe of JavaScript values, sufficient for the duck typing
performed by `MessageEnvelope.isEnvelope` (line 54). -/
inductive JSValue where
  | undefined
  | null
  | num (n : Int)
  | str (s : String)
  | boolean (b : Bool)
  | obj (fields : List (String × JSValue))

/-- JavaScript truthiness of a value (`Boolean(v)`). -/
def truthy : JSValue → Bool
  | .undefined => false
  | .null => false
  | .num n => n ≠ 0
  | .str s => s ≠ ""
  | .boolean b => b
  | .obj _ => true

/-- JavaScript property access `o.k`: throws a `TypeError` on `null` and
`undefined`; boxes other primitives (which own no such property, giving
`undefined`); looks the key up in an object's own fields. -/
def getField : JSValue → String → Except String JSValue
  | .undefined, _ => .error "TypeError"
  | .null, _ => .error "TypeError"
  | .obj fields, k => .ok ((fields.lookup k).getD .undefined)
  | _, _ => .ok .undefined

/-- JavaScript strict equality `v === s` against a string constant: only a
string with the same characters compares equal. -/
def strictEqStr : JSValue → String → Bool
  | .str t, s => t = s
  | _, _ => false

/-- `MessageEnvelope.TYPE` (line 42): the reserved marker constant. -/
def MessageEnvelope.TYPE : String := "electron-bus--message-envelope"

/-- `MessageEnvelope.isEnvelope` (lines 53-55):
`Boolean(o && o.type && o.type === MessageEnvelope.TYPE)`, with JavaScript
short-circuit `&&` made explicit (each `o.type` is a fresh property access,
and the access is only reached when `o` is truthy). -/
def isEnvelope (o : JSValue) : Except String Bool :=
  if truthy o = false then .ok false
  else
    match getField o "type" with
    | .error e => .error e
    | .ok t =>
      if truthy t = false then .ok false
      else
        match getField o "type" with
        | .error e => .error e
        | .ok t2 => .ok (strictEqStr t2 MessageEnvelope.TYPE)

/-- The `MessageEnvelope` constructor (lines 27-32): an object with the
enumerable own fields `type` (the marker), `channel`, `payload` and
`returnChannel`. -/
def mkEnvelope (channel payload returnChannel : JSValue) : JSValue :=
  .obj [("type", .str MessageEnvelope.TYPE), ("channel", channel),
        ("payload", payload), ("returnChannel", returnChannel)]

theorem strictEqStr_eq_true_iff (t : JSValue) (s : String) :
    strictEqStr t s = true ↔ t = .str s := by
  cases t <;> simp [strictEqStr]

theorem isEnvelope_obj (fields : List (String × JSValue)) :
    isEnvelope (.obj fields)
      = .ok (truthy ((fields.lookup "type").getD .undefined)
          && strictEqStr ((fields.lookup "type").getD .undefined)
              MessageEnvelope.TYPE) := by
  unfold isEnvelope
  rw [if_neg (by simp [truthy])]
  show (if truthy ((fields.lookup "type").getD .undefined) = false then _ else _) = _
  by_cases h : truthy ((fields.lookup "type").getD .undefined) = false
  · rw [if_pos h, h]
    simp
  · rw [if_neg h]
    have : truthy ((fields.lookup "type").getD .undefined) = true := by
      revert h
      cases truthy ((fields.lookup "type").getD .undefined) <;> simp
    rw [this]
    simp only [Bool.true_and]
    rfl

/-- Claim C7 (counterexample): `isEnvelope` is a duck-type check, so it also
accepts a forged object carrying only the marker field, which is not a value
produced by the `MessageEnvelope` constructor (whose objects always carry the
`type`, `channel`, `payload` and `returnChannel` fields). -/
theorem isEnvelope_forged_counterexample :
    isEnvelope (.obj [("type", .str MessageEnvelope.TYPE)]) = .ok true
    ∧ ¬∃ c p r, mkEnvelope c p r
        = .obj [("type", .str MessageEnvelope.TYPE)] := by
  constructor
  · rfl
  · rintro ⟨c, p, r, h⟩
    simp [mkEnvelope] at h

/-- Claim C7 (amended): `isEnvelope` returns `false` for `null`, `undefined`,
`42`, `{}` and `{type: "something-else"}`; it returns `true` for every value
produced by the envelope constructor (though also for any other value whose
`type` field equals the marker); it never throws for any input; and it
returns `true` iff the input is a non-null, non-undefined value whose `type`
field equals the reserved marker constant. -/
theorem isEnvelope_spec :
    isEnvelope .null = .ok false
    ∧ isEnvelope .undefined = .ok false
    ∧ isEnvelope (.num 42) = .ok false
    ∧ isEnvelope (.obj []) = .ok false
    ∧ isEnvelope (.obj [("type", .str "something-else")]) = .ok false
    ∧ (∀ c p r, isEnvelope (mkEnvelope c p r) = .ok true)
    ∧ (∀ o, ∃ b, isEnvelope o = .ok b)
    ∧ (∀ o, isEnvelope o = .ok true ↔
        (o ≠ .null ∧ o ≠ .undefined
          ∧ getField o "type" = .ok (.str MessageEnvelope.TYPE))) := by
  refine ⟨rfl, rfl, ?_, rfl, ?_, ?_, ?_, ?_⟩
  · unfold isEnvelope
    split <;> rfl
  · rfl
  · intro c p r
    rfl
  · intro o
    cases o with
    | undefined => exact ⟨false, rfl⟩
    | null => exact ⟨false, rfl⟩
    | num n => exact ⟨false, by unfold isEnvelope; split <;> rfl⟩
    | str s => exact ⟨false, by unfold isEnvelope; split <;> rfl⟩
    | boolean b => exact ⟨false, by unfold isEnvelope; split <;> rfl⟩
    | obj fields => exact ⟨_, isEnvelope_obj fields⟩
  · intro o
    cases o with
    | undefined =>
      have hL : isEnvelope .undefined = .ok false := rfl
      rw [hL]
      simp
    | null =>
      have hL : isEnvelope .null = .ok false := rfl
      rw [hL]
      simp
    | num n =>
      have hL : isEnvelope (.num n) = .ok false := by
        unfold isEnvelope; split <;> rfl
      rw [hL]
      simp [getField]
    | str s =>
      have hL : isEnvelope (.str s) = .ok false := by
        unfold isEnvelope; split <;> rfl
      rw [hL]
      simp [getField]
    | boolean b =>
      have hL : isEnvelope (.boolean b) = .ok false := by
        unfold isEnvelope; split <;> rfl
      rw [hL]
      simp [getField]
    | obj fields =>
      rw [isEnvelope_obj]
      constructor
      · intro h
        simp only [Except.ok.injEq, Bool.and_eq_true] at h
        have ht := (strictEqStr_eq_true_iff _ _).mp h.2
        refine ⟨by simp, by simp, ?_⟩
        simp [getField, ht]
      · rintro ⟨-, -, hg⟩
        simp only [getField, Except.ok.injEq] at hg
        rw [hg]
        simp [truthy, strictEqStr, MessageEnvelope.TYPE]

/-! ## Payloads with object identity, and deep cloning

`localDispatch` (lines 151-162) invokes each subscriber with
`clone(payload)`, where `clone` is `lodash.clonedeep`: a deep copy that is
structurally equal to the input but built entirely from fresh objects.
Payloads are modelled as trees whose object nodes carry an identity (heap
address); `cloneVal` allocates fresh identities from a counter, so reference
(in)equality and the effect of mutation become provable statements. -/

mutual
inductive IVal where
  | prim (n : Int)
  | obj (id : Nat) (fields : IFields)
inductive IFields where
  | fnil
  | fcons (key : String) (val : IVal) (rest : IFields)
end

mutual
inductive PVal where
  | prim (n : Int)
  | obj (fields : PFields)
inductive PFields where
  | fnil
  | fcons (key : String) (val : PVal) (rest : PFields)
end

/- The structural content of a payload, with object identities erased:
two payloads are "deep equal" iff their erasures coincide. -/
mutual
def eraseVal : IVal → PVal
  | .prim n => .prim n
  | .obj _ fields => .obj (eraseFields fields)
def eraseFields : IFields → PFields
  | .fnil => .fnil
  | .fcons k v rest => .fcons k (eraseVal v) (eraseFields rest)
end

/- All object identities occurring in a payload. -/
mutual
def idsVal : IVal → List Nat
  | .prim _ => []
  | .obj i fields => i :: idsFields fields
def idsFields : IFields → List Nat
  | .fnil => []
  | .fcons _ v rest => idsVal v ++ idsFields rest
end

/-- The identity of the root object, when the payload is an object. -/
def rootId : IVal → Option Nat
  | .prim _ => none
  | .obj i _ => some i

/- `lodash.clonedeep`: a deep copy built from freshly allocated objects.
Takes the next free identity and returns the copy together with the next
free identity after it. -/
mutual
def cloneVal (fresh : Nat) : IVal → IVal × Nat
  | .prim n => (.prim n, fresh)
  | .obj _ fields =>
    let r := cloneFields (fresh + 1) fields
    (.obj fresh r.1, r.2)
def cloneFields (fresh : Nat) : IFields → IFields × Nat
  | .fnil => (.fnil, fresh)
  | .fcons k v rest =>
    let rv := cloneVal fresh v
    let rr := cloneFields rv.2 rest
    (.fcons k rv.1 rr.1, rr.2)
end

/-- JavaScript property assignment on a field list: overwrite the key if
present, append it otherwise. -/
def updateKey (k : String) (nv : IVal) : IFields → IFields
  | .fnil => .fcons k nv .fnil
  | .fcons key v rest =>
    if key = k then .fcons key nv rest else .fcons key v (updateKey k nv rest)

/- Mutation through a reference: `x.k = nv` where `x` is the object with
identity `target`.  Every node carrying that identity is updated (in a heap
they are one and the same object). -/
mutual
def setField (target : Nat) (k : String) (nv : IVal) : IVal → IVal
  | .prim n => .prim n
  | .obj i fields =>
    if i = target then .obj i (updateKey k nv (setFieldFields target k nv fields))
    else .obj i (setFieldFields target k nv fields)
def setFieldFields (target : Nat) (k : String) (nv : IVal) : IFields → IFields
  | .fnil => .fnil
  | .fcons key v rest =>
    .fcons key (setField target k nv v) (setFieldFields target k nv rest)
end

mutual
theorem erase_cloneVal (f : Nat) (v : IVal) :
    eraseVal (cloneVal f v).1 = eraseVal v := by
  cases v with
  | prim n => rfl
  | obj i fields =>
    simp only [cloneVal, eraseVal]
    rw [erase_cloneFields]
theorem erase_cloneFields (f : Nat) (fs : IFields) :
    eraseFields (cloneFields f fs).1 = eraseFields fs := by
  cases fs with
  | fnil => rfl
  | fcons k v rest =>
    simp only [cloneFields, eraseFields]
    rw [erase_cloneVal, erase_cloneFields]
end

mutual
theorem cloneVal_fresh (f : Nat) (v : IVal) :
    f ≤ (cloneVal f v).2
    ∧ ∀ i ∈ idsVal (cloneVal f v).1, f ≤ i ∧ i < (cloneVal f v).2 := by
  cases v with
  | prim n => exact ⟨le_refl f, by intro i hi; simp [cloneVal, idsVal] at hi⟩
  | obj j fields =>
    obtain ⟨h1, h2⟩ := cloneFields_fresh (f + 1) fields
    refine ⟨?_, ?_⟩
    · simp only [cloneVal]
      omega
    · intro i hi
      simp only [cloneVal, idsVal, List.mem_cons] at hi
      rcases hi with hi | hi
      · subst hi
        simp only [cloneVal]
        omega
      · obtain ⟨ha, hb⟩ := h2 i hi
        simp only [cloneVal]
        omega
theorem cloneFields_fresh (f : Nat) (fs : IFields) :
    f ≤ (cloneFields f fs).2
    ∧ ∀ i ∈ idsFields (cloneFields f fs).1, f ≤ i ∧ i < (cloneFields f fs).2 := by
  cases fs with
  | fnil => exact ⟨le_refl f, by intro i hi; simp [cloneFields, idsFields] at hi⟩
  | fcons k v rest =>
    obtain ⟨h1, h2⟩ := cloneVal_fresh f v
    obtain ⟨h3, h4⟩ := cloneFields_fresh (cloneVal f v).2 rest
    refine ⟨?_, ?_⟩
    · simp only [cloneFields]
      omega
    · intro i hi
      simp only [cloneFields, idsFields, List.mem_append] at hi
      rcases hi with hi | hi
      · obtain ⟨ha, hb⟩ := h2 i hi
        simp only [cloneFields]
        omega
      · obtain ⟨ha, hb⟩ := h4 i hi
        simp only [cloneFields]
        omega
end

mutual
theorem setField_of_not_mem (t : Nat) (k : String) (nv : IVal) (v : IVal)
    (h : t ∉ idsVal v) : setField t k nv v = v := by
  cases v with
  | prim n => rfl
  | obj i fields =>
    simp only [idsVal, List.mem_cons, not_or] at h
    simp only [setField]
    rw [if_neg (fun hit => h.1 hit.symm)]
    rw [setFieldFields_of_not_mem t k nv fields h.2]
theorem setFieldFields_of_not_mem (t : Nat) (k : String) (nv : IVal)
    (fs : IFields) (h : t ∉ idsFields fs) : setFieldFields t k nv fs = fs := by
  cases fs with
  | fnil => rfl
  | fcons key v rest =>
    simp only [idsFields, List.mem_append, not_or] at h
    simp only [setFieldFields]
    rw [setField_of_not_mem t k nv v h.1]
    rw [setFieldFields_of_not_mem t k nv rest h.2]
end

theorem mem_idsVal_of_rootId {v : IVal} {i : Nat} (h : rootId v = some i) :
    i ∈ idsVal v := by
  cases v with
  | prim n => simp [rootId] at h
  | obj j fields =>
    simp only [rootId, Option.some.injEq] at h
    subst h
    simp [idsVal]

/-- One subscriber invocation performed by `localDispatch`: the callback, the
argument it received, and the return channel it received. -/
structure Delivery where
  callback : Nat
  payload : IVal
  returnChannel : Option String

/-- The subscriber loop of `localDispatch` (lines 158-161): each callback is
invoked with `clone(payload)` and the original `returnChannel`; the clone
allocation counter threads through. -/
def deliverLoop (payload : IVal) (ret : Option String) :
    List Nat → Nat → List Delivery × Nat
  | [], fresh => ([], fresh)
  | cb :: rest, fresh =>
    let rv := cloneVal fresh payload
    let rr := deliverLoop payload ret rest rv.2
    (⟨cb, rv.1, ret⟩ :: rr.1, rr.2)

/-- `ElectronBus.localDispatch` (lines 151-162): a silent no-op when the
channel does not exist; otherwise clone-and-invoke for each subscriber. -/
def localDispatch (r : Registry) (c : String) (payload : IVal)
    (ret : Option String) (fresh : Nat) : List Delivery × Nat :=
  if hasChannel r c = false then ([], fresh)
  else deliverLoop payload ret (subscribersOf r c) fresh

theorem deliverLoop_spec (payload : IVal) (ret : Option String) :
    ∀ (subs : List Nat) (fresh : Nat),
      fresh ≤ (deliverLoop payload ret subs fresh).2
      ∧ (deliverLoop payload ret subs fresh).1.map Delivery.callback = subs
      ∧ (∀ d ∈ (deliverLoop payload ret subs fresh).1,
          eraseVal d.payload = eraseVal payload
          ∧ d.returnChannel = ret
          ∧ ∀ i ∈ idsVal d.payload,
              fresh ≤ i ∧ i < (deliverLoop payload ret subs fresh).2)
      ∧ (deliverLoop payload ret subs fresh).1.Pairwise
          (fun d1 d2 => ∀ t ∈ idsVal d1.payload, t ∉ idsVal d2.payload) := by
  intro subs
  induction subs with
  | nil =>
    intro fresh
    refine ⟨le_refl _, rfl, ?_, ?_⟩ <;> simp [deliverLoop]
  | cons cb rest ih =>
    intro fresh
    obtain ⟨ihle, ihmap, ihall, ihpw⟩ := ih (cloneVal fresh payload).2
    obtain ⟨hcle, hcids⟩ := cloneVal_fresh fresh payload
    refine ⟨?_, ?_, ?_, ?_⟩
    · simp only [deliverLoop]
      exact le_trans hcle ihle
    · simp only [deliverLoop, List.map_cons]
      rw [ihmap]
    · simp only [deliverLoop, List.mem_cons]
      rintro d (rfl | hd)
      · refine ⟨erase_cloneVal fresh payload, rfl, ?_⟩
        intro i hi
        obtain ⟨h1, h2⟩ := hcids i hi
        exact ⟨h1, lt_of_lt_of_le h2 ihle⟩
      · obtain ⟨he, hr, hb⟩ := ihall d hd
        refine ⟨he, hr, ?_⟩
        intro i hi
        obtain ⟨h1, h2⟩ := hb i hi
        exact ⟨le_trans hcle h1, h2⟩
    · simp only [deliverLoop]
      refine List.Pairwise.cons ?_ ihpw
      intro d2 hd2 t ht
      obtain ⟨-, -, hb⟩ := ihall d2 hd2
      intro ht2
      obtain ⟨hge, -⟩ := hb t ht2
      obtain ⟨-, hlt⟩ := hcids t ht
      omega

/-- Claim C3: for a channel with at least one subscriber, `localDispatch`
invokes each current subscriber with a deep, independent copy of the payload:
the delivered value is structurally (deep-)equal to the payload but shares no
object identity with it (in particular its root is a different reference),
the copies of distinct subscribers share no object identity with each other,
mutating a delivered copy never changes the original payload or another
subscriber's copy, and the `returnChannel` argument is passed through
unchanged. -/
theorem localDispatch_deep_copy (r : Registry) (c : String) (payload : IVal)
    (ret : Option String) (fresh : Nat)
    (hfresh : ∀ i ∈ idsVal payload, i < fresh)
    (hsub : hasChannel r c = true) :
    ((localDispatch r c payload ret fresh).1.map Delivery.callback
        = subscribersOf r c)
    ∧ (∀ d ∈ (localDispatch r c payload ret fresh).1,
        eraseVal d.payload = eraseVal payload
        ∧ d.returnChannel = ret
        ∧ (∀ i ∈ idsVal d.payload, i ∉ idsVal payload)
        ∧ (∀ i, rootId payload = some i → rootId d.payload ≠ some i)
        ∧ (∀ t k nv, t ∈ idsVal d.payload → setField t k nv payload = payload))
    ∧ (localDispatch r c payload ret fresh).1.Pairwise
        (fun d1 d2 => ∀ t k nv,
          (t ∈ idsVal d1.payload → setField t k nv d2.payload = d2.payload)
          ∧ (t ∈ idsVal d2.payload → setField t k nv d1.payload = d1.payload)) := by
  have hloc : localDispatch r c payload ret fresh
      = deliverLoop payload ret (subscribersOf r c) fresh := by
    unfold localDispatch
    rw [if_neg (by simp [hsub])]
  obtain ⟨hle, hmap, hall, hpw⟩ := deliverLoop_spec payload ret (subscribersOf r c) fresh
  have hdisj : ∀ d ∈ (deliverLoop payload ret (subscribersOf r c) fresh).1,
      ∀ i ∈ idsVal d.payload, i ∉ idsVal payload := by
    intro d hd i hi hip
    obtain ⟨-, -, hb⟩ := hall d hd
    obtain ⟨hge, -⟩ := hb i hi
    exact absurd (hfresh i hip) (by omega)
  rw [hloc]
  refine ⟨hmap, ?_, ?_⟩
  · intro d hd
    obtain ⟨he, hr, hb⟩ := hall d hd
    refine ⟨he, hr, hdisj d hd, ?_, ?_⟩
    · intro i hroot hroot2
      exact hdisj d hd i (mem_idsVal_of_rootId hroot2) (mem_idsVal_of_rootId hroot)
    · intro t k nv ht
      exact setField_of_not_mem t k nv payload (hdisj d hd t ht)
  · refine List.Pairwise.imp ?_ hpw
    intro d1 d2 hd t k nv
    constructor
    · intro ht
      exact setField_of_not_mem t k nv d2.payload (hd t ht)
    · intro ht
      refine setField_of_not_mem t k nv d1.payload ?_
      intro ht1
      exact hd t ht1 ht

/-- Witness for Claim C3 at a concrete registry, payload and return channel. -/
theorem localDispatch_deep_copy_witness :
    (∀ i ∈ idsVal (IVal.obj 0 (.fcons "x" (.prim 1) .fnil)), i < 1)
    ∧ hasChannel [("ch", [10, 11])] "ch" = true
    ∧ (((localDispatch [("ch", [10, 11])] "ch"
            (IVal.obj 0 (.fcons "x" (.prim 1) .fnil)) (some "rc") 1).1.map
          Delivery.callback = subscribersOf [("ch", [10, 11])] "ch")
        ∧ (∀ d ∈ (localDispatch [("ch", [10, 11])] "ch"
              (IVal.obj 0 (.fcons "x" (.prim 1) .fnil)) (some "rc") 1).1,
            eraseVal d.payload = eraseVal (IVal.obj 0 (.fcons "x" (.prim 1) .fnil))
            ∧ d.returnChannel = some "rc"
            ∧ (∀ i ∈ idsVal d.payload,
                i ∉ idsVal (IVal.obj 0 (.fcons "x" (.prim 1) .fnil)))
            ∧ (∀ i, rootId (IVal.obj 0 (.fcons "x" (.prim 1) .fnil)) = some i →
                rootId d.payload ≠ some i)
            ∧ (∀ t k nv, t ∈ idsVal d.payload →
                setField t k nv (IVal.obj 0 (.fcons "x" (.prim 1) .fnil))
                  = IVal.obj 0 (.fcons "x" (.prim 1) .fnil)))
        ∧ (localDispatch [("ch", [10, 11])] "ch"
            (IVal.obj 0 (.fcons "x" (.prim 1) .fnil)) (some "rc") 1).1.Pairwise
            (fun d1 d2 => ∀ t k nv,
              (t ∈ idsVal d1.payload →
                setField t k nv d2.payload = d2.payload)
              ∧ (t ∈ idsVal d2.payload →
                setField t k nv d1.payload = d1.payload))) :=
  ⟨by decide, by decide,
    localDispatch_deep_copy [("ch", [10, 11])] "ch"
      (IVal.obj 0 (.fcons "x" (.prim 1) .fnil)) (some "rc") 1
      (by decide) (by decide)⟩

/-! ## Exception behavior of the subscriber loop -/

/-- The subscriber loop of `localDispatch` (lines 158-161) under JavaScript
exception semantics.  The `for` body has no try/catch, so the first throwing
callback aborts the loop; `throws` says which callbacks throw when invoked.
Returns the callbacks actually invoked (in order) and the thrower of the
escaped exception, if any. -/
def runCallbacks (throws : Nat → Bool) : List Nat → List Nat × Option Nat
  | [] => ([], none)
  | cb :: rest =>
    if throws cb then ([cb], some cb)
    else
      let r := runCallbacks throws rest
      (cb :: r.1, r.2)

/-- `localDispatch` under exception semantics: the registry is returned
unchanged (the loop never mutates `this.channels`), together with the
invoked callbacks and the escaped exception, if any. -/
def localDispatchExc (throws : Nat → Bool) (r : Registry) (c : String) :
    Registry × List Nat × Option Nat :=
  if hasChannel r c = false then (r, [], none)
  else (r, (runCallbacks throws (subscribersOf r c)).1,
    (runCallbacks throws (subscribersOf r c)).2)

theorem runCallbacks_no_throw (throws : Nat → Bool) :
    ∀ subs : List Nat, (∀ cb ∈ subs, throws cb = false) →
      runCallbacks throws subs = (subs, none) := by
  intro subs
  induction subs with
  | nil => intro _; rfl
  | cons cb rest ih =>
    intro h
    have hcb : throws cb = false := h cb (List.mem_cons_self _ _)
    simp only [runCallbacks, hcb, Bool.false_eq_true, if_false]
    rw [ih (fun x hx => h x (List.mem_cons_of_mem _ hx))]

theorem runCallbacks_throw (throws : Nat → Bool) :
    ∀ (subs : List Nat) (cb : Nat),
      (runCallbacks throws subs).2 = some cb →
      throws cb = true
      ∧ ∃ pre post, subs = pre ++ cb :: post
        ∧ (∀ x ∈ pre, throws x = false)
        ∧ (runCallbacks throws subs).1 = pre ++ [cb] := by
  intro subs
  induction subs with
  | nil => intro cb h; simp [runCallbacks] at h
  | cons hd rest ih =>
    intro cb h
    by_cases hhd : throws hd = true
    · simp only [runCallbacks, hhd, if_true] at h ⊢
      cases h
      exact ⟨hhd, [], rest, rfl, by simp, rfl⟩
    · simp only [runCallbacks, hhd, Bool.false_eq_true, if_false] at h ⊢
      obtain ⟨ht, pre, post, hsubs, hpre, hfst⟩ := ih cb h
      refine ⟨ht, hd :: pre, post, by rw [List.cons_append, hsubs], ?_, ?_⟩
      · intro x hx
        rcases List.mem_cons.mp hx with hx | hx
        · subst hx
          simpa using hhd
        · exact hpre x hx
      · rw [List.cons_append, hfst]

/-- Claim C5 (counterexample): with subscribers `1` and `2` on a channel and
subscriber `1` throwing, `localDispatch` invokes only subscriber `1`: the
escaped exception prevents delivery to subscriber `2`, which is subscribed
but never invoked, contradicting per-invocation fault isolation. -/
theorem subscriber_throw_counterexample :
    (localDispatchExc (fun n => n == 1) [("ch", [1, 2])] "ch").2.1 = [1]
    ∧ 2 ∈ subscribersOf [("ch", [1, 2])] "ch"
    ∧ 2 ∉ (localDispatchExc (fun n => n == 1) [("ch", [1, 2])] "ch").2.1
    ∧ (localDispatchExc (fun n => n == 1) [("ch", [1, 2])] "ch").2.2
        = some 1 := by
  refine ⟨?_, ?_, ?_, ?_⟩ <;> decide

/-- Claim C5 (amended): a throwing subscriber aborts the loop, so subscribers
after it in iteration order are not invoked; but the registry is untouched
(no subscription is torn down): when no subscriber throws every subscriber is
invoked, and when the loop escapes with an exception from `cb`, the
subscribers before `cb` were invoked, `cb` was invoked, and the rest were
not. -/
theorem localDispatch_exception_behavior (throws : Nat → Bool) (r : Registry)
    (c : String) :
    (localDispatchExc throws r c).1 = r
    ∧ ((∀ cb ∈ subscribersOf r c, throws cb = false) →
        (localDispatchExc throws r c).2.1 = subscribersOf r c
        ∧ (localDispatchExc throws r c).2.2 = none)
    ∧ (∀ cb, (localDispatchExc throws r c).2.2 = some cb →
        throws cb = true
        ∧ ∃ pre post, subscribersOf r c = pre ++ cb :: post
          ∧ (∀ x ∈ pre, throws x = false)
          ∧ (localDispatchExc throws r c).2.1 = pre ++ [cb]) := by
  refine ⟨?_, ?_, ?_⟩
  · unfold localDispatchExc
    split <;> rfl
  · intro h
    unfold localDispatchExc
    split
    · rename_i hch
      have : subscribersOf r c = [] := by
        simp only [hasChannel, Bool.eq_false_iff] at hch
        unfold subscribersOf
        cases hl : r.lookup c with
        | none => rfl
        | some s => exact absurd (by simp [hl]) hch
      simp [this]
    · rw [runCallbacks_no_throw throws _ h]
      exact ⟨rfl, rfl⟩
  · intro cb h
    unfold localDispatchExc at h ⊢
    by_cases hch : hasChannel r c = false
    · rw [if_pos hch] at h
      simp at h
    · rw [if_neg hch] at h ⊢
      exact runCallbacks_throw throws _ cb h

/-- Witness for Claim C5's amended theorem at concrete registries. -/
theorem localDispatch_exception_behavior_witness :
    (localDispatchExc (fun n => n == 1) [("ch", [2, 1, 3])] "ch").1
        = [("ch", [2, 1, 3])]
    ∧ ((localDispatchExc (fun n => n == 1) [("z", [5])] "z").2.1
          = subscribersOf [("z", [5])] "z"
        ∧ (localDispatchExc (fun n => n == 1) [("z", [5])] "z").2.2 = none)
    ∧ ((fun n => n == 1) 1 = true
        ∧ ∃ pre post, subscribersOf [("ch", [2, 1, 3])] "ch" = pre ++ 1 :: post
          ∧ (∀ x ∈ pre, (fun n => n == 1) x = false)
          ∧ (localDispatchExc (fun n => n == 1) [("ch", [2, 1, 3])] "ch").2.1
              = pre ++ [1]) :=
  ⟨(localDispatch_exception_behavior (fun n => n == 1) [("ch", [2, 1, 3])] "ch").1,
   (localDispatch_exception_behavior (fun n => n == 1) [("z", [5])] "z").2.1
     (by decide),
   (localDispatch_exception_behavior (fun n => n == 1) [("ch", [2, 1, 3])] "ch").2.2
     1 (by decide)⟩

/-! ## The bus instance: remote relay, dispatch, attach -/

/-- A bus instance: the channel registry (`this.channels`) and the set of
attached remote endpoints (`this.remotes`), endpoints identified by `Nat`. -/
structure Bus where
  channels : Registry
  remotes : List Nat

/-- The wire envelope built at dispatch time (line 219):
`new MessageEnvelope(channel, payload, returnChannel)`.  The payload is
placed in the envelope by reference, not cloned. -/
structure Envelope where
  channel : String
  payload : IVal
  returnChannel : Option String

/-- The non-waiting path of `ElectronBus.dispatch` (lines 175-222 with
`waiting` falsy): resolve the promise immediately with an empty result,
dispatch locally (with `returnChannel` undefined), then send an envelope to
every attached remote.  Returns the (unchanged) bus, whether the promise
resolved immediately, the local deliveries with the next allocation counter,
and the `send` calls made. -/
def dispatchFF (b : Bus) (c : String) (payload : IVal) (fresh : Nat) :
    Bus × Bool × (List Delivery × Nat) × List (Nat × Envelope) :=
  (b, true, localDispatch b.channels c payload none fresh,
   b.remotes.map (fun m => (m, ⟨c, payload, none⟩)))

/-- Claim C6: a non-waiting `dispatch` to a channel with zero subscribers
returns without error (the promise resolves immediately), invokes no
subscriber and changes no registry or bus state: a silent local no-op. -/
theorem dispatch_no_subscribers (b : Bus) (c : String) (payload : IVal)
    (fresh : Nat) (h : hasChannel b.channels c = false) :
    (dispatchFF b c payload fresh).1 = b
    ∧ (dispatchFF b c payload fresh).2.1 = true
    ∧ (dispatchFF b c payload fresh).2.2.1.1 = []
    ∧ (dispatchFF b c payload fresh).2.2.1.2 = fresh := by
  refine ⟨rfl, rfl, ?_, ?_⟩ <;> simp [dispatchFF, localDispatch, h]

/-- Witness for Claim C6 on a concrete bus with an attached remote. -/
theorem dispatch_no_subscribers_witness :
    (dispatchFF ⟨[("other", [4])], [3]⟩ "nobody" (.prim 0) 0).1
        = ⟨[("other", [4])], [3]⟩
    ∧ (dispatchFF ⟨[("other", [4])], [3]⟩ "nobody" (.prim 0) 0).2.1 = true
    ∧ (dispatchFF ⟨[("other", [4])], [3]⟩ "nobody" (.prim 0) 0).2.2.1.1 = []
    ∧ (dispatchFF ⟨[("other", [4])], [3]⟩ "nobody" (.prim 0) 0).2.2.1.2 = 0 :=
  dispatch_no_subscribers ⟨[("other", [4])], [3]⟩ "nobody" (.prim 0) 0 (by decide)

/-- The failure raised by `attach` (line 235):
`Error("Remote must be an instance of BrowserWindow")`, the spec's
`InvalidRemoteError`. -/
inductive AttachError where
  | invalidRemote

/-- A candidate remote endpoint handed to `attach`: whether it is an Electron
`BrowserWindow` (`w instanceof BrowserWindow`, line 74), whether it exposes
the minimal send capability (`webContents.send`), and the identity of its
`webContents` endpoint. -/
structure Candidate where
  isBW : Bool
  capSend : Bool
  endpointId : Nat

/-- `ElectronBus.attach` (lines 232-240): throws unless the argument is a
`BrowserWindow`; otherwise adds its `webContents` to the remote set. -/
def attach (b : Bus) (w : Candidate) : Except AttachError Bus :=
  if w.isBW = false then .error .invalidRemote
  else .ok { b with remotes := setAdd b.remotes w.endpointId }

/-- Claim C8: an object lacking the minimal send capability is not a
`BrowserWindow` (every Electron `BrowserWindow` exposes `webContents.send`,
hypothesis `hbw`), so `attach` rejects it synchronously with the
invalid-remote failure; the bus value is untouched, the endpoint is not
added to the remote set, and no subsequent dispatch sends to it. -/
theorem attach_invalid_remote (b : Bus) (w : Candidate)
    (hcap : w.capSend = false)
    (hbw : w.isBW = true → w.capSend = true)
    (hnotin : w.endpointId ∉ b.remotes) :
    attach b w = .error .invalidRemote
    ∧ (∀ c payload fresh, ∀ s ∈ (dispatchFF b c payload fresh).2.2.2,
        s.1 ≠ w.endpointId) := by
  have hw : w.isBW = false := by
    cases h : w.isBW
    · rfl
    · exact absurd (hbw h) (by simp [hcap])
  constructor
  · unfold attach
    rw [if_pos hw]
  · intro c payload fresh s hs
    simp only [dispatchFF, List.mem_map] at hs
    obtain ⟨m, hm, hms⟩ := hs
    subst hms
    intro hcontra
    exact hnotin (hcontra ▸ hm)

/-- Witness for Claim C8 at a concrete bus and candidate. -/
theorem attach_invalid_remote_witness :
    attach ⟨[], []⟩ ⟨false, false, 7⟩ = .error .invalidRemote
    ∧ (∀ c payload fresh,
        ∀ s ∈ (dispatchFF ⟨[], []⟩ c payload fresh).2.2.2, s.1 ≠ 7) :=
  attach_invalid_remote ⟨[], []⟩ ⟨false, false, 7⟩ rfl
    (fun h => by simp at h) (by simp)

/-! ## The request/reply correlator (waiting dispatch, lines 183-208) -/

theorem mem_setAdd_self (s : List Nat) (f : Nat) : f ∈ setAdd s f := by
  unfold setAdd
  split
  · assumption
  · simp

theorem subscribersOf_subscribe_self (r : Registry) (c : String) (f : Nat) :
    subscribersOf (subscribe r c f) c = setAdd (subscribersOf r c) f := by
  unfold subscribersOf
  rw [lookup_subscribe_self]
  rfl

/-- Subscribing a fresh channel appends exactly its one-element entry. -/
theorem subscribe_fresh_eq {r : Registry} {retC : String} (cb : Nat)
    (h : r.lookup retC = none) :
    subscribe r retC cb = r ++ [(retC, [cb])] := by
  unfold subscribe
  rw [if_neg (by simp [h])]
  rw [List.map_append]
  have h1 : r.map (fun p => if p.1 = retC then (p.1, setAdd p.2 cb) else p)
      = r := by
    calc r.map (fun p => if p.1 = retC then (p.1, setAdd p.2 cb) else p)
        = r.map id := by
          apply List.map_congr_left
          intro p hp
          have hpc : p.1 ≠ retC := by
            intro hpc
            exact (lookup_eq_none_iff.mp h) (List.mem_map.mpr ⟨p, hp, hpc⟩)
          simp [hpc]
      _ = r := List.map_id r
  rw [h1]
  simp [setAdd]

/-- Unsubscribing the one-shot handler of a fresh return channel restores the
registry exactly: the ephemeral entry leaves no residue. -/
theorem unsubscribe_subscribe_fresh {r : Registry} {retC : String} (cb : Nat)
    (h : r.lookup retC = none) :
    unsubscribe (subscribe r retC cb) retC cb = r := by
  rw [subscribe_fresh_eq cb h]
  have hl : (r ++ [(retC, [cb])]).lookup retC = some [cb] := by
    rw [List.lookup_append, h, Option.none_or, lookup_cons, if_pos rfl]
  have he : setDelete [cb] cb = [] := by simp [setDelete]
  rw [unsubscribe_eq_filter hl he]
  rw [List.filter_append]
  have h1 : r.filter (fun p => p.1 ≠ retC) = r := by
    apply List.filter_eq_self.mpr
    intro p hp
    simp only [ne_eq, decide_eq_true_eq]
    intro hpc
    exact (lookup_eq_none_iff.mp h) (List.mem_map.mpr ⟨p, hp, hpc⟩)
  have h2 : List.filter (fun p => decide (p.1 ≠ retC)) [(retC, [cb])] = [] := by
    simp
  rw [h1, h2, List.append_nil]

/-- `timeout || 15000` (line 208): the armed deadline in milliseconds.  `0`
is falsy in JavaScript, as is an omitted option (`undefined`), so both fall
back to the default 15000. -/
def effectiveTimeout : Option Int → Int
  | none => 15000
  | some t => if t = 0 then 15000 else t

/-- The final settlement of a waiting dispatch's promise. -/
inductive Settled where
  | resolved (p : Nat)
  | timedOut
deriving DecidableEq

/-- A promise settles at most once: a later resolve or reject is a no-op. -/
def settle (old : Option Settled) (new : Settled) : Option Settled :=
  match old with
  | none => some new
  | some x => some x

/-- The state of one pending waiting dispatch: the channel registry, the
generated return channel with its one-shot callback, whether the deadline
timer is armed, and the promise's settlement. -/
structure PendingState where
  registry : Registry
  retChannel : String
  cb : Nat
  timerActive : Bool
  result : Option Settled

/-- Primitive steps performed by the two handler bodies of `dispatch`. -/
inductive POp where
  | clearTimer
  | unsubR
  | resolveP (p : Nat)
  | rejectT
deriving DecidableEq

/-- Effect of one primitive step: `clearTimeout(timer)` (line 198) disarms
the timer; `returnPath.unsubscribe()` (lines 199 and 206) removes the
one-shot handler from the registry; `resolve` / `reject` (lines 200 and 207)
settle the promise. -/
def applyPOp (s : PendingState) : POp → PendingState
  | .clearTimer => { s with timerActive := false }
  | .unsubR => { s with registry := unsubscribe s.registry s.retChannel s.cb }
  | .resolveP p => { s with result := settle s.result (.resolved p) }
  | .rejectT => { s with result := settle s.result .timedOut }

def applyPOps (s : PendingState) (ops : List POp) : PendingState :=
  ops.foldl applyPOp s

/-- The return-path handler body (lines 197-201): cancel the timer,
unsubscribe the return path, then resolve with the response. -/
def responseTrace (p : Nat) : List POp := [.clearTimer, .unsubR, .resolveP p]

/-- The timer body (lines 205-208): unsubscribe the return path, then reject
with the timeout failure. -/
def timerTrace : List POp := [.unsubR, .rejectT]

/-- The two events racing for a pending request. -/
inductive PEvent where
  | response (p : Nat)
  | timerFire
deriving DecidableEq

def eventOutcome : PEvent → Settled
  | .response p => .resolved p
  | .timerFire => .timedOut

def eventTrace : PEvent → List POp
  | .response p => responseTrace p
  | .timerFire => timerTrace

/-- Event semantics.  A response dispatched on the return channel reaches the
one-shot handler only while its subscription is in the registry
(`localDispatch` silently drops it otherwise, lines 153-156); the handler
body then runs.  The armed timer fires only while active — `clearTimeout`
prevents a canceled timer from ever firing, and a fired one-shot timer is
spent — and the timer body then runs. -/
def stepEvent (s : PendingState) : PEvent → PendingState × List POp
  | .response p =>
    if s.cb ∈ subscribersOf s.registry s.retChannel
    then (applyPOps s (responseTrace p), responseTrace p)
    else (s, [])
  | .timerFire =>
    if s.timerActive
    then (applyPOps { s with timerActive := false } timerTrace, timerTrace)
    else (s, [])

def runEvents (s : PendingState) : List PEvent → PendingState × List POp
  | [] => (s, [])
  | e :: es =>
    ((runEvents (stepEvent s e).1 es).1,
      (stepEvent s e).2 ++ (runEvents (stepEvent s e).1 es).2)

/-- Arming a waiting dispatch (lines 191-208): subscribe the one-shot handler
on the generated return channel and arm the deadline timer; the promise is
unsettled. -/
def armWaiting (r : Registry) (retC : String) (cb : Nat) : PendingState :=
  { registry := subscribe r retC cb
    retChannel := retC
    cb := cb
    timerActive := true
    result := none }

/-- The pending state after the winning event: return path unsubscribed,
timer disarmed, promise settled with the winner's outcome. -/
def afterFirst (r : Registry) (retC : String) (cb : Nat) (e : PEvent) :
    PendingState :=
  { registry := unsubscribe (subscribe r retC cb) retC cb
    retChannel := retC
    cb := cb
    timerActive := false
    result := some (eventOutcome e) }

def isSettleOp : POp → Bool
  | .resolveP _ => true
  | .rejectT => true
  | _ => false

/-- A pending request whose subscription is gone and whose timer is disarmed
reacts to no further event. -/
def deadState (s : PendingState) : Prop :=
  s.cb ∉ subscribersOf s.registry s.retChannel ∧ s.timerActive = false

theorem stepEvent_dead {s : PendingState} (h : deadState s) (e : PEvent) :
    stepEvent s e = (s, []) := by
  cases e with
  | response p =>
    simp only [stepEvent]
    rw [if_neg h.1]
  | timerFire =>
    simp only [stepEvent]
    rw [if_neg (by simp [h.2])]

theorem runEvents_dead {s : PendingState} (h : deadState s) :
    ∀ evs : List PEvent, runEvents s evs = (s, []) := by
  intro evs
  induction evs with
  | nil => rfl
  | cons e es ih =>
    unfold runEvents
    rw [stepEvent_dead h e, ih]
    simp

theorem stepEvent_armWaiting (r : Registry) (retC : String) (cb : Nat)
    (e : PEvent) :
    stepEvent (armWaiting r retC cb) e
      = (afterFirst r retC cb e, eventTrace e) := by
  have hmem : cb ∈ subscribersOf (subscribe r retC cb) retC := by
    rw [subscribersOf_subscribe_self]
    exact mem_setAdd_self _ _
  cases e with
  | response p =>
    simp only [stepEvent, armWaiting]
    rw [if_pos hmem]
    rfl
  | timerFire =>
    simp only [stepEvent, armWaiting]
    rw [if_pos trivial]
    rfl

theorem afterFirst_dead (r : Registry) (retC : String) (cb : Nat)
    (e : PEvent) : deadState (afterFirst r retC cb e) :=
  ⟨notMem_subscribersOf_unsubscribe (subscribe r retC cb) retC cb, rfl⟩

/-- Claim C1: a pending waiting dispatch resolves exactly once.  Whichever of
response and deadline timer happens first wins: the promise settles with that
winner's outcome, the op trace of the whole run is exactly the winner's
handler body (the losing path never fires — the response path has cleared the
timer, the timer path has unsubscribed the handler — and later events are
no-ops), the trace settles exactly once, and on both paths the return-channel
subscription is removed from the registry before the promise settles, the
response path additionally cancelling the timer before resolving (explicit in
the two handler traces). -/
theorem waiting_request_exactly_once (r : Registry) (retC : String) (cb : Nat)
    (evs : List PEvent) (hne : evs ≠ []) :
    (runEvents (armWaiting r retC cb) evs).1.result
        = some (eventOutcome (evs.head hne))
    ∧ ((runEvents (armWaiting r retC cb) evs).2.filter isSettleOp).length = 1
    ∧ (runEvents (armWaiting r retC cb) evs).1.timerActive = false
    ∧ cb ∉ subscribersOf (runEvents (armWaiting r retC cb) evs).1.registry retC
    ∧ (∀ p, evs.head hne = .response p →
        (runEvents (armWaiting r retC cb) evs).2
          = [.clearTimer, .unsubR, .resolveP p])
    ∧ (evs.head hne = .timerFire →
        (runEvents (armWaiting r retC cb) evs).2 = [.unsubR, .rejectT]) := by
  cases evs with
  | nil => exact absurd rfl hne
  | cons e es =>
    have hrun : runEvents (armWaiting r retC cb) (e :: es)
        = (afterFirst r retC cb e, eventTrace e) := by
      unfold runEvents
      rw [stepEvent_armWaiting r retC cb e]
      rw [runEvents_dead (afterFirst_dead r retC cb e) es]
      simp
    rw [hrun]
    simp only [List.head_cons]
    refine ⟨rfl, ?_, rfl, ?_, ?_, ?_⟩
    · cases e <;> rfl
    · exact notMem_subscribersOf_unsubscribe (subscribe r retC cb) retC cb
    · intro p hp
      subst hp
      rfl
    · intro hp
      subst hp
      rfl

/-- Witness for Claim C1: a single timer firing settles the request. -/
theorem waiting_request_exactly_once_witness :
    (runEvents (armWaiting [] "rc" 0) [PEvent.timerFire]).1.result
        = some Settled.timedOut
    ∧ ((runEvents (armWaiting [] "rc" 0) [PEvent.timerFire]).2.filter
        isSettleOp).length = 1
    ∧ (runEvents (armWaiting [] "rc" 0) [PEvent.timerFire]).1.timerActive
        = false
    ∧ 0 ∉ subscribersOf
        (runEvents (armWaiting [] "rc" 0) [PEvent.timerFire]).1.registry "rc"
    ∧ (runEvents (armWaiting [] "rc" 0) [PEvent.timerFire]).2
        = [POp.unsubR, POp.rejectT] := by
  obtain ⟨h1, h2, h3, h4, h5, h6⟩ :=
    waiting_request_exactly_once [] "rc" 0 [PEvent.timerFire] (by simp)
  exact ⟨h1, h2, h3, h4, h6 rfl⟩

/-- Claim C2: a waiting dispatch whose return channel receives no response
rejects with the timeout failure when the deadline fires; the armed deadline
is the requested `timeout` for a truthy value and 15000 ms when the option is
omitted; and afterwards the ephemeral return-channel subscription is gone
from the registry — the registry is exactly what it was before the dispatch.
The return channel is assumed fresh (`hfresh`), which the random generated
name (line 194) provides. -/
theorem waiting_dispatch_timeout (r : Registry) (retC : String) (cb : Nat)
    (t : Int) (hfresh : r.lookup retC = none) (ht : 0 < t) :
    effectiveTimeout (some t) = t
    ∧ effectiveTimeout none = 15000
    ∧ (stepEvent (armWaiting r retC cb) .timerFire).1.result
        = some Settled.timedOut
    ∧ (stepEvent (armWaiting r retC cb) .timerFire).1.registry = r
    ∧ hasChannel (stepEvent (armWaiting r retC cb) .timerFire).1.registry retC
        = false := by
  have hstep := stepEvent_armWaiting r retC cb .timerFire
  have hreg : (stepEvent (armWaiting r retC cb) .timerFire).1.registry = r := by
    rw [hstep]
    exact unsubscribe_subscribe_fresh cb hfresh
  refine ⟨?_, rfl, ?_, hreg, ?_⟩
  · simp only [effectiveTimeout]
    rw [if_neg (by omega)]
  · rw [hstep]
    rfl
  · rw [hreg]
    simp [hasChannel, hfresh]

/-- Witness for Claim C2 at a concrete empty registry and 50 ms timeout. -/
theorem waiting_dispatch_timeout_witness :
    effectiveTimeout (some 50) = 50
    ∧ effectiveTimeout none = 15000
    ∧ (stepEvent (armWaiting [] "a-rc" 0) .timerFire).1.result
        = some Settled.timedOut
    ∧ (stepEvent (armWaiting [] "a-rc" 0) .timerFire).1.registry = []
    ∧ hasChannel (stepEvent (armWaiting [] "a-rc" 0) .timerFire).1.registry
        "a-rc" = false :=
  waiting_dispatch_timeout [] "a-rc" 0 50 rfl (by omega)

/-- Claim C10: a waiting dispatch with an explicit falsy `timeout: 0` arms
the default 15000 ms deadline, indistinguishable from omitting the timeout
option, because line 208 computes `timeout || 15000` and `0` is falsy. -/
theorem timeout_zero_defaults :
    effectiveTimeout (some 0) = 15000
    ∧ effectiveTimeout (some 0) = effectiveTimeout none := by
  constructor <;> rfl

end ElectronBus
